import Mathlib

/-!
Verification of the e-mail classifier (`app.py`): the keyword fallback
classifier `classificar_fallback`, the remote classifier adapter
`classificar_com_openai`, the orchestrator `classificar_email`, the audit
logger `registrar_log`, and the upload extension check `allowed_file`.

Strings are modelled as Lean `String`; Python's `in` substring test becomes
list-infix on the character data; the audit log becomes an explicit list of
entries returned alongside each result; the optional `openai` library, the
`OPENAI_API_KEY` environment variable, the remote chat call and the
`json.loads` library routine become an explicit environment record, so that
the adapter and the orchestrator are pure functions of (environment, text).
-/

namespace EmailClassifier

/-- The Python whitespace set (the characters stripped by `str.strip()`),
used for the `not texto.strip()` emptiness test. -/
def pyIsSpace (c : Char) : Bool :=
  decide ((0x09 ≤ c.toNat ∧ c.toNat ≤ 0x0D) ∨ (0x1C ≤ c.toNat ∧ c.toNat ≤ 0x1F) ∨
    c.toNat = 0x20 ∨ c.toNat = 0x85 ∨ c.toNat = 0xA0 ∨ c.toNat = 0x1680 ∨
    (0x2000 ≤ c.toNat ∧ c.toNat ≤ 0x200A) ∨ c.toNat = 0x2028 ∨ c.toNat = 0x2029 ∨
    c.toNat = 0x202F ∨ c.toNat = 0x205F ∨ c.toNat = 0x3000)

/-- `texto` is empty or whitespace-only: Python's `not texto or not texto.strip()`. -/
def isBlank (s : String) : Bool := s.data.all pyIsSpace

/-- Python `str.lower()` on one character, for the ranges this program meets:
ASCII `A`-`Z` and the Latin-1 uppercase letters `À`-`Þ` (excluding `×`) map
down by `0x20`; every other character is unchanged. -/
def lowerChar (c : Char) : Char :=
  if 0x41 ≤ c.toNat ∧ c.toNat ≤ 0x5A then Char.ofNat (c.toNat + 0x20)
  else if 0xC0 ≤ c.toNat ∧ c.toNat ≤ 0xDE ∧ c.toNat ≠ 0xD7 then Char.ofNat (c.toNat + 0x20)
  else c

/-- Python `texto.lower()`. -/
def pyLower (s : String) : String := String.mk (s.data.map lowerChar)

/-- Python's substring test `p in t`. -/
def pyIn (p t : String) : Bool := decide (p.data <:+: t.data)

/-- One audit line of `classificador.log`: the category and the text snippet
(the wall-clock timestamp is outside the model). -/
structure LogEntry where
  categoria : String
  snippet : String
deriving Repr, DecidableEq

/-- `(texto or "")[:200].replace("\n", " ")`: the first 200 characters of the
text with newlines replaced by spaces. -/
def snippet200 (texto : String) : String :=
  String.mk ((texto.data.take 200).map (fun c => if c = Char.ofNat 10 then Char.ofNat 32 else c))

/-- `registrar_log(texto, categoria)`: the audit entry it appends.  (For a
Python string `texto`, `texto or ""` is `texto` itself when non-empty and `""`
— again `texto` — when empty, so the snippet is always taken from `texto`.) -/
def registrar_log (texto categoria : String) : LogEntry :=
  ⟨categoria, snippet200 texto⟩

/-- `palavras_produtivas` from `classificar_fallback`, in source order. -/
def palavras_produtivas : List String :=
  ["status", "erro", "problema", "ajuda", "solicitação", "solicitacao",
   "anexo", "relatório", "relatorio", "suporte", "ticket", "falha",
   "incidente", "reunião", "reuniao", "agendar", "urgente", "pendente"]

/-- `palavras_improdutivas` from `classificar_fallback`, in source order. -/
def palavras_improdutivas : List String :=
  ["obrigado", "obrigada", "feliz natal", "boas festas", "parabéns", "parabens", "abraços"]

/-- The standard acknowledgment reply of the productive branch (the two
adjacent Python string literals concatenated). -/
def resposta_produtiva : String :=
  "Olá, recebemos seu e-mail. Agradecemos o contato e iremos verificar sua solicitação. Retornaremos no prazo de um dia útil. Se possível, envie mais detalhes ou anexe arquivos relevantes."

/-- `classificar_fallback(texto)`: the returned `(categoria, resposta)` pair
together with the audit entries appended during the call.  The two keyword
loops (`for p in ...: if p in t: return ...`) are modelled with `List.find?`,
which scans the list in order and stops at the first match. -/
def classificar_fallback (texto : String) : (String × String) × List LogEntry :=
  if isBlank texto then
    (("Improdutivo", "Obrigado pela mensagem!"), [registrar_log texto "Improdutivo"])
  else
    match palavras_produtivas.find? (fun p => pyIn p (pyLower texto)) with
    | some _ => (("Produtivo", resposta_produtiva), [registrar_log texto "Produtivo"])
    | none =>
      match palavras_improdutivas.find? (fun p => pyIn p (pyLower texto)) with
      | some _ =>
        (("Improdutivo", "Agradeço a mensagem e o contato!"), [registrar_log texto "Improdutivo"])
      | none => (("Improdutivo", "Agradeço o contato!"), [registrar_log texto "Improdutivo"])

/-- The environment of `classificar_com_openai`: whether the `import openai`
succeeded, the value of `os.getenv("OPENAI_API_KEY")`, the remote chat call
(returning the response content, or raising), and the `json.loads` library
routine (returning a JSON object as a key/value list, or raising). -/
structure RemoteEnv where
  openaiAvailable : Bool
  apiKey : Option String
  call : String → Except String String
  jsonLoads : String → Except String (List (String × String))

/-- Python truthiness of `api_key` (`os.getenv` result): `False` for an absent
variable (`None`) and for the empty string. -/
def keyTruthy (env : RemoteEnv) : Bool :=
  match env.apiKey with
  | none => false
  | some s => !s.isEmpty

/-- "is not an opening brace" — the scan for the regex's leftmost start. -/
def notOpen (c : Char) : Bool := c ≠ Char.ofNat 123

/-- "is not a closing brace" — the scan for the regex's greedy end. -/
def notClose (c : Char) : Bool := c ≠ Char.ofNat 125

/-- `re.search(r"\x7b.*\x7d", conteudo, re.DOTALL)`: with a greedy dot that
matches newlines, the matched span runs from the first opening brace to the
last closing brace, provided that closing brace comes after the opening one.
`upToLastClose cs` is the prefix of `cs` ending at the last closing brace. -/
def upToLastClose (cs : List Char) : List Char :=
  (cs.reverse.dropWhile notClose).reverse

/-- The regex match on the suffix of the text starting at its first opening
brace: the head is that brace; the match succeeds when a closing brace
follows it, and extends greedily to the last one. -/
def spanOfDrop : List Char → Option String
  | [] => none
  | c :: rest =>
    if (Char.ofNat 125) ∈ rest then some (String.mk (c :: upToLastClose rest)) else none

/-- The span matched by `re.search(r"\x7b.*\x7d", s, re.DOTALL)`, if any. -/
def jsonSpan (s : String) : Option String :=
  spanOfDrop (s.data.dropWhile notOpen)

/-- `classificar_com_openai(texto)`: `none` models the Python `None` returns
(library missing, key missing/empty, or any exception raised by the remote
call or by `json.loads` — all caught by the surrounding `try`/`except`).
On success it returns the `(category, reply)` pair and the audit entry. -/
def classificar_com_openai (env : RemoteEnv) (texto : String) :
    Option (String × String) × List LogEntry :=
  if env.openaiAvailable = false then (none, [])
  else if keyTruthy env = false then (none, [])
  else
    match env.call texto with
    | .error _ => (none, [])
    | .ok conteudo =>
      match jsonSpan conteudo with
      | some span =>
        match env.jsonLoads span with
        | .error _ => (none, [])
        | .ok parsed =>
          (some ((List.lookup "category" parsed).getD "Produtivo",
                 (List.lookup "reply" parsed).getD ""),
           [registrar_log texto ((List.lookup "category" parsed).getD "Produtivo")])
      | none => (some ("Produtivo", conteudo), [registrar_log texto "Produtivo"])

/-- `classificar_email(texto)`: try OpenAI, fall back to keywords.  (The Python
`if res:` test is `res is not None`, since a 2-tuple is always truthy.) -/
def classificar_email (env : RemoteEnv) (texto : String) :
    (String × String) × List LogEntry :=
  match classificar_com_openai env texto with
  | (some res, log) => (res, log)
  | (none, log) => ((classificar_fallback texto).1, log ++ (classificar_fallback texto).2)

/-- `ALLOWED_EXTENSIONS = \x7b"txt", "pdf"\x7d` membership after lower-casing. -/
def extAllowed (ext : List Char) : Bool :=
  String.mk (ext.map lowerChar) = "txt" || String.mk (ext.map lowerChar) = "pdf"

/-- "is not a dot" — the scan for a filename's last extension separator. -/
def notDot (c : Char) : Bool := c ≠ Char.ofNat 46

/-- `filename.rsplit(".", 1)[1]`: the characters after the last dot. -/
def afterLastDot (cs : List Char) : List Char :=
  (cs.reverse.takeWhile notDot).reverse

/-- `allowed_file(filename)`: `"." in filename and
filename.rsplit(".", 1)[1].lower() in ALLOWED_EXTENSIONS`. -/
def allowed_file (filename : String) : Bool :=
  decide ((Char.ofNat 46) ∈ filename.data) && extAllowed (afterLastDot filename.data)

/-! ### Helper lemmas -/

lemma lowerChar_of_pyIsSpace {c : Char} (h : pyIsSpace c = true) : lowerChar c = c := by
  simp only [pyIsSpace, decide_eq_true_eq] at h
  unfold lowerChar
  rw [if_neg (by omega), if_neg (by omega)]

lemma pyLower_all_space {texto : String} (h : isBlank texto = true) :
    ∀ c ∈ (pyLower texto).data, pyIsSpace c = true := by
  intro c hc
  simp only [isBlank, List.all_eq_true] at h
  obtain ⟨x, hx, rfl⟩ := List.mem_map.mp hc
  have hx' := h x hx
  rw [lowerChar_of_pyIsSpace hx']
  exact hx'

lemma infix_produtiva_not_blank {p texto : String} (hp : p ∈ palavras_produtivas)
    (h : p.data <:+: (pyLower texto).data) : isBlank texto = false := by
  cases hb : isBlank texto with
  | false => rfl
  | true =>
    exfalso
    have hall := pyLower_all_space hb
    have hnon : ∀ q ∈ palavras_produtivas, ∃ c ∈ q.data, pyIsSpace c = false := by decide
    obtain ⟨c, hc, hcf⟩ := hnon p hp
    have : c ∈ (pyLower texto).data := h.subset hc
    rw [hall c this] at hcf
    exact Bool.noConfusion hcf

/-! ### Claims about `classificar_fallback` -/

/-- C4: an empty or whitespace-only text is classified `Improdutivo` with the
fixed reply `"Obrigado pela mensagem!"`, and one audit entry is still
appended. -/
theorem texto_vazio_improdutivo (texto : String) (h : isBlank texto = true) :
    classificar_fallback texto =
      (("Improdutivo", "Obrigado pela mensagem!"), [registrar_log texto "Improdutivo"]) := by
  unfold classificar_fallback
  rw [if_pos h]

/-- C4 witness: the empty string. -/
theorem texto_vazio_improdutivo_aplicado :
    isBlank "" = true ∧
    classificar_fallback "" =
      (("Improdutivo", "Obrigado pela mensagem!"), [registrar_log "" "Improdutivo"]) :=
  ⟨by decide, texto_vazio_improdutivo "" (by decide)⟩

/-- C1: whenever the lower-cased text contains some keyword of the fixed,
ordered productive list, `classificar_fallback` returns `Produtivo` with the
single standard acknowledgment reply (and one matching audit entry) — the
productive scan runs before the courtesy scan, so this holds no matter what
courtesy keywords the text also contains. -/
theorem produtivo_keyword_vence (texto : String)
    (h : ∃ p ∈ palavras_produtivas, p.data <:+: (pyLower texto).data) :
    classificar_fallback texto =
      (("Produtivo", resposta_produtiva), [registrar_log texto "Produtivo"]) := by
  obtain ⟨p, hp, hinf⟩ := h
  have hb := infix_produtiva_not_blank hp hinf
  unfold classificar_fallback
  rw [if_neg (by simp [hb])]
  cases hfind : palavras_produtivas.find? (fun q => pyIn q (pyLower texto)) with
  | none =>
    rw [List.find?_eq_none] at hfind
    exact absurd (by simpa [pyIn] using hinf) (hfind p hp)
  | some q => rfl

/-- C1 witness: a text holding both the courtesy keyword `obrigado` and the
productive keyword `urgente` is classified `Produtivo`. -/
theorem produtivo_keyword_vence_aplicado :
    (∃ p ∈ palavras_produtivas,
      p.data <:+: (pyLower "Obrigado, mas o caso é URGENTE").data) ∧
    classificar_fallback "Obrigado, mas o caso é URGENTE" =
      (("Produtivo", resposta_produtiva),
       [registrar_log "Obrigado, mas o caso é URGENTE" "Produtivo"]) :=
  ⟨by decide, produtivo_keyword_vence "Obrigado, mas o caso é URGENTE" (by decide)⟩

/-- C5: a non-blank text whose lower-cased form contains no productive keyword
is always `Improdutivo` — with the courtesy reply when a courtesy keyword
occurs as a substring, and with the distinct default reply otherwise. -/
theorem sem_produtiva_improdutivo (texto : String) (h1 : isBlank texto = false)
    (h2 : ∀ p ∈ palavras_produtivas, ¬ p.data <:+: (pyLower texto).data) :
    (classificar_fallback texto).1.1 = "Improdutivo" ∧
    ((∃ p ∈ palavras_improdutivas, p.data <:+: (pyLower texto).data) →
      (classificar_fallback texto).1.2 = "Agradeço a mensagem e o contato!") ∧
    ((∀ p ∈ palavras_improdutivas, ¬ p.data <:+: (pyLower texto).data) →
      (classificar_fallback texto).1.2 = "Agradeço o contato!") ∧
    ("Agradeço a mensagem e o contato!" : String) ≠ "Agradeço o contato!" := by
  have hfind : palavras_produtivas.find? (fun q => pyIn q (pyLower texto)) = none := by
    rw [List.find?_eq_none]
    intro q hq
    simpa [pyIn] using h2 q hq
  unfold classificar_fallback
  rw [if_neg (by simp [h1]), hfind]
  refine ⟨?_, ?_, ?_, by decide⟩
  · cases palavras_improdutivas.find? (fun q => pyIn q (pyLower texto)) <;> rfl
  · intro ⟨p, hp, hinf⟩
    cases hcfind : palavras_improdutivas.find? (fun q => pyIn q (pyLower texto)) with
    | none =>
      rw [List.find?_eq_none] at hcfind
      exact absurd (by simpa [pyIn] using hinf) (hcfind p hp)
    | some q => rfl
  · intro hnone
    have hcfind : palavras_improdutivas.find? (fun q => pyIn q (pyLower texto)) = none := by
      rw [List.find?_eq_none]
      intro q hq
      simpa [pyIn] using hnone q hq
    rw [hcfind]

/-- C5 witness: `"bom dia"` holds no keyword at all, so it gets the default
reply; `"muito obrigado"` holds only the courtesy keyword `obrigado`. -/
theorem sem_produtiva_improdutivo_aplicado :
    (classificar_fallback "bom dia").1.1 = "Improdutivo" ∧
    (classificar_fallback "bom dia").1.2 = "Agradeço o contato!" ∧
    (classificar_fallback "muito obrigado").1.2 = "Agradeço a mensagem e o contato!" :=
  ⟨(sem_produtiva_improdutivo "bom dia" (by decide) (by decide)).1,
   (sem_produtiva_improdutivo "bom dia" (by decide) (by decide)).2.2.1 (by decide),
   (sem_produtiva_improdutivo "muito obrigado" (by decide) (by decide)).2.1 (by decide)⟩

/-- C9: `classificar_fallback` is total by construction and its category is
always one of the two valid values. -/
theorem fallback_categoria_valida (texto : String) :
    (classificar_fallback texto).1.1 = "Produtivo" ∨
    (classificar_fallback texto).1.1 = "Improdutivo" := by
  unfold classificar_fallback
  split
  · exact Or.inr rfl
  · split
    · exact Or.inl rfl
    · split
      · exact Or.inr rfl
      · exact Or.inr rfl

/-! ### Claims about the adapter and the orchestrator -/

/-- Every branch of `classificar_fallback` logs exactly one entry, holding the
returned category and the 200-character snippet. -/
lemma classificar_fallback_log (texto : String) :
    (classificar_fallback texto).2 =
      [⟨(classificar_fallback texto).1.1, snippet200 texto⟩] := by
  unfold classificar_fallback
  split
  · rfl
  · split
    · rfl
    · split
      · rfl
      · rfl

/-- `classificar_com_openai` either yields no result and no log entry, or a
result together with exactly one log entry holding the returned category and
the snippet. -/
lemma classificar_com_openai_shape (env : RemoteEnv) (texto : String) :
    classificar_com_openai env texto = (none, ([] : List LogEntry)) ∨
    ∃ r, classificar_com_openai env texto = (some r, [⟨r.1, snippet200 texto⟩]) := by
  unfold classificar_com_openai
  split
  · exact Or.inl rfl
  · split
    · exact Or.inl rfl
    · split
      · exact Or.inl rfl
      · split
        · split
          · exact Or.inl rfl
          · exact Or.inr ⟨_, rfl⟩
        · exact Or.inr ⟨_, rfl⟩

/-- C2: with the `openai` library unavailable, or no `OPENAI_API_KEY` in the
environment, `classificar_com_openai` returns no result for every text, and
`classificar_email` coincides with `classificar_fallback`, audit entries
included. -/
theorem sem_credencial_igual_fallback (env : RemoteEnv) (texto : String)
    (h : env.apiKey = none ∨ env.openaiAvailable = false) :
    classificar_com_openai env texto = (none, []) ∧
    classificar_email env texto = classificar_fallback texto := by
  have hnone : classificar_com_openai env texto = (none, []) := by
    unfold classificar_com_openai
    rcases h with h | h
    · have hk : keyTruthy env = false := by simp [keyTruthy, h]
      simp [hk]
    · simp [h]
  refine ⟨hnone, ?_⟩
  unfold classificar_email
  rw [hnone]
  rfl

/-- An environment with no API key configured (the `call` and `jsonLoads`
fields are immaterial: they are never consulted without a key). -/
def envSemChave : RemoteEnv :=
  ⟨true, none, fun _ => Except.error "network", fun _ => Except.error "decode"⟩

/-- C2 witness: with no key, classifying `"obrigado"` goes through the
fallback exactly. -/
theorem sem_credencial_igual_fallback_aplicado :
    classificar_com_openai envSemChave "obrigado" = (none, []) ∧
    classificar_email envSemChave "obrigado" = classificar_fallback "obrigado" :=
  sem_credencial_igual_fallback envSemChave "obrigado" (Or.inl rfl)

/-- C3: every call to `classificar_email` — remote success or fallback —
appends exactly one audit entry, whose snippet is the first 200 characters of
the input with newlines replaced by spaces and whose category is the returned
category. -/
theorem auditoria_exatamente_uma (env : RemoteEnv) (texto : String) :
    (classificar_email env texto).2 =
      [⟨(classificar_email env texto).1.1, snippet200 texto⟩] := by
  unfold classificar_email
  rcases classificar_com_openai_shape env texto with h | ⟨r, h⟩
  · rw [h]
    simpa using classificar_fallback_log texto
  · rw [h]

/-- C6: the adapter converts every failure into "no result": library missing,
key missing or empty, an exception from the remote call, or an exception from
`json.loads` on the extracted span. -/
theorem adapter_nunca_propaga (env : RemoteEnv) (texto : String)
    (h : env.openaiAvailable = false ∨ keyTruthy env = false ∨
      (∃ e, env.call texto = Except.error e) ∨
      (∃ conteudo span e, env.call texto = Except.ok conteudo ∧
        jsonSpan conteudo = some span ∧ env.jsonLoads span = Except.error e)) :
    classificar_com_openai env texto = (none, []) := by
  unfold classificar_com_openai
  rcases h with h | h | ⟨e, h⟩ | ⟨conteudo, span, e, hc, hs, hj⟩
  · simp [h]
  · simp [h]
  · simp [h]
  · simp [hc, hs, hj]

/-- An environment whose remote call always raises. -/
def envChamadaFalha : RemoteEnv :=
  ⟨true, some "sk-teste", fun _ => Except.error "timeout", fun _ => Except.error "decode"⟩

/-- C6 witness: a raising remote call yields no result (and no log entry). -/
theorem adapter_nunca_propaga_aplicado :
    classificar_com_openai envChamadaFalha "status do ticket" = (none, []) :=
  adapter_nunca_propaga envChamadaFalha "status do ticket"
    (Or.inr (Or.inr (Or.inl ⟨"timeout", rfl⟩)))

/-! ### The regex span `r"\x7b.*\x7d"` with `re.DOTALL` -/

lemma dropWhile_head_false {α : Type} {p : α → Bool} :
    ∀ {l : List α} {c : α} {rest : List α}, List.dropWhile p l = c :: rest → p c = false := by
  intro l
  induction l with
  | nil => intro c rest h; simp at h
  | cons x xs ih =>
    intro c rest h
    rw [List.dropWhile_cons] at h
    by_cases hx : p x
    · rw [if_pos hx] at h; exact ih h
    · rw [if_neg hx] at h
      cases h
      simpa using hx

lemma takeWhile_all {α : Type} {p : α → Bool} {l : List α} :
    ∀ x ∈ List.takeWhile p l, p x = true := by
  induction l with
  | nil => simp
  | cons y ys ih =>
    intro x hx
    rw [List.takeWhile_cons] at hx
    by_cases hy : p y
    · rw [if_pos hy] at hx
      rcases List.mem_cons.mp hx with rfl | hx
      · exact hy
      · exact ih x hx
    · rw [if_neg hy] at hx
      simp at hx

lemma takeWhile_length_le_of_head_false {α : Type} {p : α → Bool} {d : α}
    (hd : p d = false) : ∀ (a r : List α),
    (List.takeWhile p (a ++ d :: r)).length ≤ a.length := by
  intro a r
  induction a with
  | nil => simp [List.takeWhile_cons, hd]
  | cons x xs ih =>
    rw [List.cons_append, List.takeWhile_cons]
    by_cases hx : p x
    · rw [if_pos hx]
      simpa using ih
    · simp [if_neg hx]

/-- After the last closing brace of `rest` there are no further closing
braces: `rest` splits as `upToLastClose rest ++ tail` with a brace-free tail,
and `upToLastClose rest` ends in the closing brace. -/
lemma upToLastClose_decomp {rest : List Char} (hm : (Char.ofNat 125) ∈ rest) :
    rest = upToLastClose rest ++ (rest.reverse.takeWhile notClose).reverse ∧
    (∃ mid, upToLastClose rest = mid ++ [Char.ofNat 125]) ∧
    ∀ x ∈ (rest.reverse.takeWhile notClose).reverse, x ≠ Char.ofNat 125 := by
  cases hdr : rest.reverse.dropWhile notClose with
  | nil =>
    exfalso
    rw [List.dropWhile_eq_nil_iff] at hdr
    have := hdr (Char.ofNat 125) (List.mem_reverse.mpr hm)
    simp [notClose] at this
  | cons d dtl =>
    have hd : d = Char.ofNat 125 := by
      have := dropWhile_head_false hdr
      simpa [notClose] using this
    have hsplit := List.takeWhile_append_dropWhile notClose rest.reverse
    rw [hdr] at hsplit
    refine ⟨?_, ⟨dtl.reverse, ?_⟩, ?_⟩
    · conv_lhs => rw [← List.reverse_reverse rest, ← hsplit]
      rw [List.reverse_append]
      unfold upToLastClose
      rw [hdr]
    · unfold upToLastClose
      rw [hdr, hd, List.reverse_cons]
    · intro x hx
      have hx' := takeWhile_all x (List.mem_reverse.mp hx)
      simpa [notClose] using hx'

/-- Whenever the regex finds a span, the response text splits as
`a ++ span ++ b`: the span starts at the first opening brace (`a` holds no
opening brace), ends at the last closing brace (`b` holds no closing brace),
and is itself an opening brace followed by anything and a closing brace. -/
lemma jsonSpan_some_decomp {s span : String} (h : jsonSpan s = some span) :
    ∃ a mid b, s.data = a ++ span.data ++ b ∧
      span.data = Char.ofNat 123 :: (mid ++ [Char.ofNat 125]) ∧
      (Char.ofNat 123) ∉ a ∧ (Char.ofNat 125) ∉ b := by
  unfold jsonSpan at h
  cases hdrop : s.data.dropWhile notOpen with
  | nil => rw [hdrop] at h; exact absurd h (by simp [spanOfDrop])
  | cons c rest =>
    rw [hdrop] at h
    simp only [spanOfDrop] at h
    by_cases hm : (Char.ofNat 125) ∈ rest
    · rw [if_pos hm] at h
      have hspan : span.data = c :: upToLastClose rest := by
        have := Option.some.inj h
        rw [← this]
      have hc : c = Char.ofNat 123 := by
        have := dropWhile_head_false hdrop
        simpa [notOpen] using this
      obtain ⟨hrest, ⟨mid, hu⟩, hb⟩ := upToLastClose_decomp hm
      have hsdata := List.takeWhile_append_dropWhile notOpen s.data
      rw [hdrop] at hsdata
      refine ⟨s.data.takeWhile notOpen, mid,
        (rest.reverse.takeWhile notClose).reverse, ?_, ?_, ?_, ?_⟩
      · conv_lhs => rw [← hsdata]
        rw [hspan]
        conv_lhs => rw [hrest]
        rw [hu]
        simp [List.append_assoc]
      · rw [hspan, hu, hc]
      · intro hmem
        have := takeWhile_all _ hmem
        simp [notOpen] at this
      · intro hmem
        exact hb _ hmem rfl
    · rw [if_neg hm] at h
      exact absurd h (by simp)

/-- When the regex finds no span, the response text contains no opening brace
followed (anywhere later) by a closing brace. -/
lemma jsonSpan_none_no_braces {s : String} (h : jsonSpan s = none) :
    ∀ a mid b, s.data ≠ a ++ Char.ofNat 123 :: (mid ++ Char.ofNat 125 :: b) := by
  intro a mid b heq
  unfold jsonSpan at h
  cases hdrop : s.data.dropWhile notOpen with
  | nil =>
    rw [List.dropWhile_eq_nil_iff] at hdrop
    have hmem : (Char.ofNat 123) ∈ s.data := by rw [heq]; simp
    have := hdrop _ hmem
    simp [notOpen] at this
  | cons c rest =>
    rw [hdrop] at h
    simp only [spanOfDrop] at h
    have hm : (Char.ofNat 125) ∉ rest := by
      intro hm
      rw [if_pos hm] at h
      simp at h
    apply hm
    have hsdata := List.takeWhile_append_dropWhile notOpen s.data
    rw [hdrop] at hsdata
    have hsuff1 : (Char.ofNat 125 :: b) <:+ s.data := by
      refine ⟨a ++ Char.ofNat 123 :: mid, ?_⟩
      rw [heq]
      simp [List.append_assoc]
    have hsuff2 : rest <:+ s.data := by
      refine ⟨s.data.takeWhile notOpen ++ [c], ?_⟩
      conv_rhs => rw [← hsdata]
      simp [List.append_assoc]
    have hlen : (Char.ofNat 125 :: b).length ≤ rest.length := by
      have l1 : s.data.length = (s.data.takeWhile notOpen).length + 1 + rest.length := by
        conv_lhs => rw [← hsdata]
        simp [List.length_append]
        omega
      have l2 : s.data.length = a.length + 1 + mid.length + 1 + b.length := by
        rw [heq]
        simp [List.length_append]
        omega
      have l3 : (s.data.takeWhile notOpen).length ≤ a.length := by
        have hd : notOpen (Char.ofNat 123) = false := by simp [notOpen]
        have := takeWhile_length_le_of_head_false hd a (mid ++ Char.ofNat 125 :: b)
        rw [← heq] at this
        exact this
      simp only [List.length_cons]
      omega
    have hsuff3 : (Char.ofNat 125 :: b) <:+ rest := by
      rw [← List.reverse_prefix] at hsuff1 hsuff2 ⊢
      exact List.prefix_of_prefix_length_le hsuff1 hsuff2 (by simpa using hlen)
    exact hsuff3.subset (List.mem_cons_self _ _)

/-- C7: on a successful remote call, the adapter extracts the first greedy
brace-to-brace span (dot matching newlines) and hands it to `json.loads`; a
parsed object with no `category` field defaults the category to `Produtivo`;
a response with no span at all is returned whole as the reply, with category
`Produtivo`.  The last two conjuncts pin down the span: it runs from the
first opening brace to the last closing brace, and the regex fails exactly
when no closing brace follows an opening one. -/
theorem adapter_sucesso_parsing (env : RemoteEnv) (texto conteudo : String)
    (havail : env.openaiAvailable = true) (hkey : keyTruthy env = true)
    (hcall : env.call texto = Except.ok conteudo) :
    (jsonSpan conteudo = none →
      classificar_com_openai env texto =
        (some ("Produtivo", conteudo), [registrar_log texto "Produtivo"])) ∧
    (∀ span fields, jsonSpan conteudo = some span →
      env.jsonLoads span = Except.ok fields →
      List.lookup "category" fields = none →
      classificar_com_openai env texto =
        (some ("Produtivo", (List.lookup "reply" fields).getD ""),
         [registrar_log texto "Produtivo"])) ∧
    (∀ span, jsonSpan conteudo = some span →
      ∃ a mid b, conteudo.data = a ++ span.data ++ b ∧
        span.data = Char.ofNat 123 :: (mid ++ [Char.ofNat 125]) ∧
        (Char.ofNat 123) ∉ a ∧ (Char.ofNat 125) ∉ b) ∧
    (jsonSpan conteudo = none →
      ∀ a mid b, conteudo.data ≠ a ++ Char.ofNat 123 :: (mid ++ Char.ofNat 125 :: b)) := by
  refine ⟨?_, ?_, fun span hs => jsonSpan_some_decomp hs,
    fun hn => jsonSpan_none_no_braces hn⟩
  · intro hnone
    unfold classificar_com_openai
    simp [havail, hkey, hcall, hnone]
  · intro span fields hspan hloads hcat
    unfold classificar_com_openai
    simp [havail, hkey, hcall, hspan, hloads, hcat]

/-- An environment whose remote call succeeds with a plain-text response that
holds no JSON object. -/
def envRespostaTexto : RemoteEnv :=
  ⟨true, some "sk-demo", fun _ => Except.ok "sem json aqui", fun _ => Except.error "decode"⟩

/-- C7 witness: a braceless response is passed through whole as the reply
with category `Produtivo`. -/
theorem adapter_sucesso_parsing_aplicado :
    classificar_com_openai envRespostaTexto "oi" =
      (some ("Produtivo", "sem json aqui"), [registrar_log "oi" "Produtivo"]) :=
  (adapter_sucesso_parsing envRespostaTexto "oi" "sem json aqui" rfl rfl rfl).1 rfl

/-- An environment whose remote call succeeds with a JSON object holding a
`category` but no `reply` field, parsed the way `json.loads` would. -/
def envRespostaVazia : RemoteEnv :=
  ⟨true, some "sk-demo2", fun _ => Except.ok "\x7b\"category\": \"Produtivo\"\x7d",
   fun _ => Except.ok [("category", "Produtivo")]⟩

/-- C8 counterexample: a successful remote classification — not a transport
failure — whose reply is the empty string, because the parsed object has no
`reply` field and `parsed.get("reply", "")` defaults to `""`. -/
theorem resposta_vazia_contraexemplo :
    (classificar_com_openai envRespostaVazia "email").1 = some ("Produtivo", "") ∧
    (classificar_email envRespostaVazia "email").1.2 = "" := by
  constructor <;> rfl

/-- C8 amended: every reply produced by the keyword fallback is non-empty;
the remote path may return an empty reply even on success. -/
theorem resposta_fallback_nao_vazia (texto : String) :
    (classificar_fallback texto).1.2 ≠ "" := by
  unfold classificar_fallback
  split
  · simp
  · split
    · simp [resposta_produtiva]
    · split
      · simp
      · simp

/-! ### The extension check -/

lemma takeWhile_append_of_all {α : Type} {p : α → Bool} {l : List α}
    (h : ∀ x ∈ l, p x = true) (r : List α) :
    List.takeWhile p (l ++ r) = l ++ List.takeWhile p r := by
  induction l with
  | nil => simp
  | cons x xs ih =>
    rw [List.cons_append, List.takeWhile_cons, if_pos (h x (List.mem_cons_self x xs))]
    rw [ih (fun y hy => h y (List.mem_cons_of_mem x hy)), List.cons_append]

/-- Appending text after a dot-free suffix: `rsplit(".", 1)[1]` recovers
exactly that suffix. -/
lemma afterLastDot_eq {a b : List Char} (hb : (Char.ofNat 46) ∉ b) :
    afterLastDot (a ++ Char.ofNat 46 :: b) = b := by
  unfold afterLastDot
  rw [List.reverse_append, List.reverse_cons, List.append_assoc, List.singleton_append]
  have hall : ∀ x ∈ b.reverse, notDot x = true := by
    intro x hx
    have hxd : x ≠ Char.ofNat 46 := fun hxe => hb (hxe ▸ List.mem_reverse.mp hx)
    simp [notDot, hxd]
  rw [takeWhile_append_of_all hall, List.takeWhile_cons, if_neg (by simp [notDot])]
  simp

/-- Every filename with a dot splits as `a ++ dot ++ afterLastDot`, with the
suffix dot-free. -/
lemma afterLastDot_decomp {cs : List Char} (h : (Char.ofNat 46) ∈ cs) :
    ∃ a, cs = a ++ Char.ofNat 46 :: afterLastDot cs ∧
      (Char.ofNat 46) ∉ afterLastDot cs := by
  cases hdr : cs.reverse.dropWhile notDot with
  | nil =>
    exfalso
    rw [List.dropWhile_eq_nil_iff] at hdr
    have := hdr (Char.ofNat 46) (List.mem_reverse.mpr h)
    simp [notDot] at this
  | cons d dtl =>
    have hd : d = Char.ofNat 46 := by
      have := dropWhile_head_false hdr
      simpa [notDot] using this
    have hsplit := List.takeWhile_append_dropWhile notDot cs.reverse
    rw [hdr] at hsplit
    refine ⟨dtl.reverse, ?_, ?_⟩
    · conv_lhs => rw [← List.reverse_reverse cs, ← hsplit]
      rw [List.reverse_append, List.reverse_cons, hd]
      unfold afterLastDot
      simp [List.append_assoc]
    · intro hmem
      have := takeWhile_all _ (List.mem_reverse.mp hmem)
      simp [notDot] at this

/-- C10: `allowed_file` accepts a filename exactly when it contains a dot and
the characters after its last dot, lower-cased, spell `txt` or `pdf`; so
`A.TXT` passes, a dotless name fails, and only the final extension counts
(`a.exe.txt` passes while `a.txt.exe` fails). -/
theorem allowed_file_caracterizacao :
    (∀ f : String, allowed_file f = true ↔
      ∃ a b : List Char, f.data = a ++ Char.ofNat 46 :: b ∧ (Char.ofNat 46) ∉ b ∧
        (b.map lowerChar = "txt".data ∨ b.map lowerChar = "pdf".data)) ∧
    allowed_file "A.TXT" = true ∧ allowed_file "noext" = false ∧
    allowed_file "a.exe.txt" = true ∧ allowed_file "a.txt.exe" = false := by
  refine ⟨?_, by decide, by decide, by decide, by decide⟩
  intro f
  constructor
  · intro hall
    unfold allowed_file at hall
    rw [Bool.and_eq_true] at hall
    obtain ⟨hdot, hext⟩ := hall
    have hmem : (Char.ofNat 46) ∈ f.data := of_decide_eq_true hdot
    obtain ⟨a, hcs, hnb⟩ := afterLastDot_decomp hmem
    refine ⟨a, afterLastDot f.data, hcs, hnb, ?_⟩
    unfold extAllowed at hext
    rw [Bool.or_eq_true] at hext
    rcases hext with hh | hh
    · exact Or.inl (congrArg String.data (of_decide_eq_true hh))
    · exact Or.inr (congrArg String.data (of_decide_eq_true hh))
  · intro ⟨a, b, hcs, hnb, hext⟩
    unfold allowed_file
    rw [Bool.and_eq_true]
    refine ⟨decide_eq_true ?_, ?_⟩
    · rw [hcs]
      simp
    · rw [hcs, afterLastDot_eq hnb]
      unfold extAllowed
      rcases hext with hh | hh
      · rw [hh]
        simp [String.ext_iff]
      · rw [hh]
        simp [String.ext_iff]

end EmailClassifier
